import Mathlib

/-!
Verification of `asr_evaluation/asr_evaluation.py`: a shallow embedding of
the script's core, together with theorems settling the specification's
claims about it.

Modelling conventions:
* Python strings are modelled as `List Char` (`Str`); the character-wise
  operations `upper`, `lower`, string repetition and joining are embedded
  directly on character lists.
* Python floats produced by true division are modelled as rationals `ℚ`;
  a Python division, which raises `ZeroDivisionError` on a zero divisor,
  is embedded as `pyDiv`, returning `Except`.
* Code that can raise (`assert`, out-of-range indexing, division) returns
  `Except Err` with one constructor per distinct raise site.
* The external `editdistance.SequenceMatcher` is not part of this
  repository; it is modelled from the specification (§4.1/§4.2): a
  Wagner–Fischer distance table, a backtrack preferring diagonal over
  vertical (delete) over horizontal (insert), and run-length compression
  of the raw step sequence into opcodes.
-/

namespace AsrEval

/-- A Python string, modelled as its character sequence. -/
abbrev Str := List Char

/-- `str.upper()`, character-wise. -/
def upper (s : Str) : Str := s.map Char.toUpper

/-- `str.lower()`, character-wise. -/
def lower (s : Str) : Str := s.map Char.toLower

/-- `'*' * n`: a run of `n` asterisks. -/
def stars (n : Nat) : Str := List.replicate n '*'

/-- `' ' * n`: a run of `n` spaces. -/
def pad (n : Nat) : Str := List.replicate n ' '

/-- Python `line.split()` (no argument): split on runs of whitespace,
dropping empty pieces.  The splitting itself is the usual
accumulate-until-whitespace scan. -/
def pySplitWs (s : Str) : List Str :=
  ((s.foldr
      (fun c acc =>
        if c.isWhitespace then ([], acc.1 :: acc.2) else (c :: acc.1, acc.2))
      (([] : Str), ([] : List Str))).1 ::
    (s.foldr
      (fun c acc =>
        if c.isWhitespace then ([], acc.1 :: acc.2) else (c :: acc.1, acc.2))
      (([] : Str), ([] : List Str))).2).filter (fun t => t ≠ [])

/-- Python `s.split(' ')`: split at every single space character,
keeping empty pieces. -/
def splitOnSpace (s : Str) : List Str :=
  match s.foldr
      (fun c acc => if c = ' ' then ([], acc.1 :: acc.2) else (c :: acc.1, acc.2))
      (([] : Str), ([] : List Str)) with
  | (last, rest) => last :: rest

/-- `' '.join(tokens)`. -/
def joinSp : List Str → Str
  | [] => []
  | [t] => t
  | t :: ts => t ++ ' ' :: joinSp ts

/-- Python slice `xs[i:j]` (clamped at the ends, empty when `j ≤ i`). -/
def pySlice (xs : List Str) (i j : Nat) : List Str := (xs.drop i).take (j - i)

/-- The alignment operation kinds used by the sequence matcher's opcodes. -/
inductive Tag where
  | equal
  | replace
  | delete
  | insert
deriving DecidableEq, Repr

/-- One opcode `(tag, i1, i2, j1, j2)`: an alignment operation over the
reference span `[i1, i2)` and the hypothesis span `[j1, j2)`. -/
structure Opcode where
  tag : Tag
  i1 : Nat
  i2 : Nat
  j1 : Nat
  j2 : Nat
deriving DecidableEq, Repr

/-- `error_codes = ['replace', 'delete', 'insert']`: the opcode tags that
count as errors. -/
def error_codes : List Tag := [.replace, .delete, .insert]

/-- `get_error_count`: filter the opcodes whose tag is in `error_codes`,
take `max(i2 - i1, j2 - j1)` for each, and sum with `reduce(+, ·, 0)`. -/
def get_error_count (opcodes : List Opcode) : Nat :=
  ((opcodes.filter (fun x => decide (x.tag ∈ error_codes))).map
      (fun x => max (x.i2 - x.i1) (x.j2 - x.j1))).foldl (· + ·) 0

/-- The three process-wide confusion tables.  Each Python
`defaultdict(int)` is modelled as a total function returning the tally of
a key (`0` when the key was never incremented). -/
structure ConfTables where
  insertion_table : Str → Nat
  deletion_table : Str → Nat
  substitution_table : Str × Str → Nat

/-- `insertion_table[word] += 1`. -/
def bumpIns (t : ConfTables) (w : Str) : ConfTables :=
  { t with insertion_table :=
      fun k => if k = w then t.insertion_table k + 1 else t.insertion_table k }

/-- `deletion_table[word] += 1`. -/
def bumpDel (t : ConfTables) (w : Str) : ConfTables :=
  { t with deletion_table :=
      fun k => if k = w then t.deletion_table k + 1 else t.deletion_table k }

/-- `substitution_table[key] += 1`. -/
def bumpSub (t : ConfTables) (key : Str × Str) : ConfTables :=
  { t with substitution_table :=
      fun k => if k = key then t.substitution_table k + 1
               else t.substitution_table k }

/-- `track_confusions(sm, seq1, seq2)`: walk the opcodes; for an `insert`
tally every hypothesis token of the span, for a `delete` every reference
token of the span, and for a `replace` every ordered pair of the two
slices.  (Span indexing uses `getD`; the matcher's opcodes are always in
bounds, where this agrees with Python's `seq[i]`.) -/
def track_confusions (opcodes : List Opcode) (seq1 seq2 : List Str)
    (t : ConfTables) : ConfTables :=
  opcodes.foldl
    (fun t op =>
      match op.tag with
      | .insert =>
          (List.range' op.j1 (op.j2 - op.j1)).foldl
            (fun t i => bumpIns t (seq2.getD i [])) t
      | .delete =>
          (List.range' op.i1 (op.i2 - op.i1)).foldl
            (fun t i => bumpDel t (seq1.getD i [])) t
      | .replace =>
          (pySlice seq1 op.i1 op.i2).foldl
            (fun t w1 =>
              (pySlice seq2 op.j1 op.j2).foldl
                (fun t w2 => bumpSub t (w1, w2)) t)
            t
      | .equal => t)
    t

/-- All ordered pairs with first component from `l1` and second from `l2`. -/
def crossPairs (l1 l2 : List Str) : List (Str × Str) :=
  l1.flatMap (fun w1 => l2.map (fun w2 => (w1, w2)))

/-- The distinct raise sites of the script, one constructor per site:
the `assert (ref_id == hyp_id)` in `main`, the
`assert (matches1 == matches2)` in `get_match_count`, the
`assert (len(s1) == len(s2))` in `print_diff`, out-of-range list
indexing (`IndexError`), and division by zero (`ZeroDivisionError`). -/
inductive Err where
  | identifierMismatch
  | matchCountMismatch
  | diffAssert
  | indexError
  | zeroDivision
deriving DecidableEq, Repr

/-- Python truthiness of a replace slot (`if w1 and w2:`): the padding
value `False` (here `none`) and the empty string are falsy. -/
def truthy : Option Str → Bool
  | none => false
  | some s => !s.isEmpty

/-- One iteration of the per-slot loop in the `replace` branch of
`print_diff`: if both slots hold (truthy) words, pad the shorter word with
trailing spaces; afterwards a slot that held the padding value `False`
becomes an asterisk run as wide as the word read from the other slot.
(Both slots being `False` cannot arise: padding extends only the shorter
of the two slot lists.) -/
def slotFix (w1 w2 : Option Str) : Str × Str :=
  let p :=
    if truthy w1 && truthy w2 then
      let a := w1.getD []
      let b := w2.getD []
      if a.length > b.length then (w1, some (b ++ pad (a.length - b.length)))
      else if a.length < b.length then
        (some (a ++ pad (b.length - a.length)), w2)
      else (w1, w2)
    else (w1, w2)
  let r1 := if w1 = none then stars (w2.getD []).length else p.1.getD []
  let r2 := if w2 = none then stars (w1.getD []).length else p.2.getD []
  (r1, r2)

/-- The `replace` branch of `print_diff`: upper-case both slices, pad the
shorter slice with `False` slots, assert the slot counts agree, then fix
every slot pair. -/
def diffReplace (seq1 seq2 : List Str) (i1 i2 j1 j2 : Nat) :
    Except Err (List Str × List Str) :=
  let seq1_len := i2 - i1
  let seq2_len := j2 - j1
  let s1 : List (Option Str) :=
    ((pySlice seq1 i1 i2).map (fun w => some (upper w))) ++
      List.replicate (seq2_len - seq1_len) none
  let s2 : List (Option Str) :=
    ((pySlice seq2 j1 j2).map (fun w => some (upper w))) ++
      List.replicate (seq1_len - seq2_len) none
  if s1.length ≠ s2.length then .error .diffAssert
  else
    let fixedPairs := (s1.zip s2).map (fun p => slotFix p.1 p.2)
    .ok (fixedPairs.map Prod.fst, fixedPairs.map Prod.snd)

/-- The tokens one opcode contributes to the reference row and the
hypothesis row of the diff. -/
def diffOpcode (seq1 seq2 : List Str) (op : Opcode) :
    Except Err (List Str × List Str) :=
  match op.tag with
  | .equal =>
      .ok ((List.range' op.i1 (op.i2 - op.i1)).map
              (fun i => lower (seq1.getD i [])),
           (List.range' op.j1 (op.j2 - op.j1)).map
              (fun j => lower (seq2.getD j [])))
  | .delete =>
      .ok ((List.range' op.i1 (op.i2 - op.i1)).map
              (fun i => upper (seq1.getD i [])),
           (List.range' op.i1 (op.i2 - op.i1)).map
              (fun i => stars (seq1.getD i []).length))
  | .insert =>
      .ok ((List.range' op.j1 (op.j2 - op.j1)).map
              (fun j => stars (seq2.getD j []).length),
           (List.range' op.j1 (op.j2 - op.j1)).map
              (fun j => upper (seq2.getD j [])))
  | .replace => diffReplace seq1 seq2 op.i1 op.i2 op.j1 op.j2

/-- The `ref_tokens` and `hyp_tokens` lists built by `print_diff`. -/
def print_diff_tokens (opcodes : List Opcode) (seq1 seq2 : List Str) :
    Except Err (List Str × List Str) :=
  opcodes.foldlM
    (fun (acc : List Str × List Str) op => do
      let (c1, c2) ← diffOpcode seq1 seq2 op
      .ok (acc.1 ++ c1, acc.2 ++ c2))
    ([], [])

/-- `print_diff`: the two printed lines
`"REF: " + ' '.join(ref_tokens)` and `"HYP: " + ' '.join(hyp_tokens)`. -/
def print_diff (opcodes : List Opcode) (seq1 seq2 : List Str) :
    Except Err (Str × Str) := do
  let (rt, ht) ← print_diff_tokens opcodes seq1 seq2
  .ok ("REF: ".data ++ joinSp rt, "HYP: ".data ++ joinSp ht)

/-- Modelled from the spec: the substitution cost of the external
`editdistance` aligner — `1` for distinct tokens, `0` for equal ones
(§4.1). -/
def subCost (a b : Str) : Nat := if a = b then 0 else 1

/-- Row `i + 1` of the distance table, built from row `i` (`prev`):
`distAux a b prev i j` is the table entry at `(i + 1, j)`. -/
def distAux (a b : List Str) (prev : Nat → Nat) (i : Nat) : Nat → Nat
  | 0 => i + 1
  | j + 1 =>
      min (prev j + subCost (a.getD i []) (b.getD j []))
        (min (prev (j + 1) + 1) (distAux a b prev i j + 1))

/-- The rows of the distance table: row `0` is `fun j => j`, row `i + 1`
is built from row `i`. -/
def distRow (a b : List Str) : Nat → (Nat → Nat)
  | 0 => fun j => j
  | i + 1 => distAux a b (distRow a b i) i

/-- Modelled from the spec: the Wagner–Fischer distance-table entry of the
external `editdistance` aligner — `dist a b i j` is the minimum edit
distance between the first `i` tokens of `a` and the first `j` tokens of
`b`, built row by row (§4.1).  It satisfies the usual recurrence
(`dist_zero_left`, `dist_succ_zero`, `dist_succ_succ` below). -/
def dist (a b : List Str) (i j : Nat) : Nat := distRow a b i j

/-- One raw alignment step, located at reference position `i` and
hypothesis position `j`.  An `equal`/`replace` step consumes one token on
each side, a `delete` one reference token, an `insert` one hypothesis
token. -/
structure Step where
  tag : Tag
  i : Nat
  j : Nat
deriving DecidableEq, Repr

/-- Backtracking along table row `0`: from cell `(0, j)` everything is an
insertion. -/
def backZero : Nat → List Step
  | 0 => []
  | j + 1 => backZero j ++ [⟨.insert, 0, j⟩]

/-- Backtracking through table row `i + 1`, given the backtracks `prev`
ending in row `i`: `backAux a b prev i j` backtracks from cell
`(i + 1, j)`, preferring diagonal over vertical (delete) over horizontal
(insert). -/
def backAux (a b : List Str) (prev : Nat → List Step) (i : Nat) :
    Nat → List Step
  | 0 => prev 0 ++ [⟨.delete, i, 0⟩]
  | j + 1 =>
      if dist a b i j + subCost (a.getD i []) (b.getD j []) =
          dist a b (i + 1) (j + 1) then
        prev j ++
          [⟨if subCost (a.getD i []) (b.getD j []) = 0 then .equal
            else .replace, i, j⟩]
      else if dist a b i (j + 1) + 1 = dist a b (i + 1) (j + 1) then
        prev (j + 1) ++ [⟨.delete, i, j + 1⟩]
      else
        backAux a b prev i j ++ [⟨.insert, i + 1, j⟩]

/-- The backtracks ending in each table row. -/
def backRow (a b : List Str) : Nat → (Nat → List Step)
  | 0 => backZero
  | i + 1 => backAux a b (backRow a b i) i

/-- Modelled from the spec: the backtracking pass of the external
`editdistance` aligner — walk from cell `(i, j)` back to `(0, 0)`
choosing a predecessor achieving the table minimum, preferring diagonal
(match/substitute) over vertical (delete) over horizontal (insert)
(§4.1).  The steps are returned in forward order. -/
def backtrack (a b : List Str) (i j : Nat) : List Step := backRow a b i j

/-- Modelled from the spec: the raw cell-by-cell step sequence of the
full alignment of `a` and `b` (§4.1). -/
def smSteps (a b : List Str) : List Step := backtrack a b a.length b.length

/-- The opcode covered by a single step. -/
def stepOp (s : Step) : Opcode :=
  match s.tag with
  | .equal => ⟨.equal, s.i, s.i + 1, s.j, s.j + 1⟩
  | .replace => ⟨.replace, s.i, s.i + 1, s.j, s.j + 1⟩
  | .delete => ⟨.delete, s.i, s.i + 1, s.j, s.j⟩
  | .insert => ⟨.insert, s.i, s.i, s.j, s.j + 1⟩

/-- Modelled from the spec: run-length compression of the raw step
sequence — consecutive steps of the same kind are merged into one opcode
spanning the union of their index ranges (§4.1). -/
def compress : List Step → List Opcode
  | [] => []
  | s :: rest =>
      match compress rest with
      | [] => [stepOp s]
      | op :: ops =>
          if (stepOp s).tag = op.tag then
            ⟨op.tag, (stepOp s).i1, op.i2, (stepOp s).j1, op.j2⟩ :: ops
          else stepOp s :: op :: ops

/-- Modelled from the spec: `sm.get_opcodes()` of the external
`editdistance.SequenceMatcher` — the run-length-compressed opcode
sequence of the alignment (§4.1). -/
def get_opcodes (a b : List Str) : List Opcode := compress (smSteps a b)

/-- Modelled from the spec: `sm.matches()` of the external
`editdistance.SequenceMatcher` — the number of matched tokens, counted
over the raw step sequence of the alignment (§4.2). -/
def matchesCount (a b : List Str) : Nat :=
  (smSteps a b).countP (fun s => s.tag == Tag.equal)

/-- Modelled from the spec: `sm.get_matching_blocks()` of the external
`editdistance.SequenceMatcher` — the table of contiguous matching
regions `(i, j, size)`, one per `equal` opcode (§4.2). -/
def get_matching_blocks (a b : List Str) : List (Nat × Nat × Nat) :=
  (get_opcodes a b).filterMap (fun op =>
    if op.tag = .equal then some (op.i1, op.j1, op.i2 - op.i1) else none)

/-- `get_match_count`: compute the match count from `sm.matches()` and
independently as the summed sizes of the matching blocks
(`reduce(+, map(x[2]), 0)`), assert the two agree, and return the
first. -/
def get_match_count (a b : List Str) : Except Err Nat :=
  let matches1 := matchesCount a b
  let matches2 :=
    ((get_matching_blocks a b).map (fun x => x.2.2)).foldl (· + ·) 0
  if matches1 = matches2 then .ok matches1 else .error .matchCountMismatch

/-- The sum of the `equal`-opcode reference-span lengths. -/
def eqSpanSum (ops : List Opcode) : Nat :=
  (ops.map (fun op => if op.tag = .equal then op.i2 - op.i1 else 0)).sum

/-- The cell reached after performing step `s`: reference coordinate. -/
def nextI (s : Step) : Nat :=
  match s.tag with
  | .equal => s.i + 1
  | .replace => s.i + 1
  | .delete => s.i + 1
  | .insert => s.i

/-- The cell reached after performing step `s`: hypothesis coordinate. -/
def nextJ (s : Step) : Nat :=
  match s.tag with
  | .equal => s.j + 1
  | .replace => s.j + 1
  | .delete => s.j
  | .insert => s.j + 1

/-- The steps form a contiguous chain from cell `(i, j)` to cell
`(i', j')`: each step starts where the previous one ended. -/
def chainTo : Nat → Nat → Nat → Nat → List Step → Prop
  | i, j, i', j', [] => i = i' ∧ j = j'
  | i, j, i', j', s :: rest =>
      s.i = i ∧ s.j = j ∧ chainTo (nextI s) (nextJ s) i' j' rest

/-- Well-formedness of one opcode against the two token sequences: spans
are ordered and in bounds, and an `equal` opcode relates spans of the same
length holding pairwise equal tokens (§3 of the specification). -/
def OpcodeValid (seq1 seq2 : List Str) (op : Opcode) : Prop :=
  op.i1 ≤ op.i2 ∧ op.i2 ≤ seq1.length ∧ op.j1 ≤ op.j2 ∧
    op.j2 ≤ seq2.length ∧
    (op.tag = .equal →
      op.i2 - op.i1 = op.j2 - op.j1 ∧
      ∀ k, k < op.i2 - op.i1 →
        seq1.getD (op.i1 + k) [] = seq2.getD (op.j1 + k) [])

instance (seq1 seq2 : List Str) (op : Opcode) :
    Decidable (OpcodeValid seq1 seq2 op) := by
  unfold OpcodeValid; infer_instance

/-- The command-line switches that affect the computed statistics.
(`--min-word-count` and `--print-wer-vs-length` only filter or enable
printed report sections and change no computed value, so they are not
carried here.) -/
structure Flags where
  print_instances : Bool
  files_have_ids : Bool
  confusions : Bool

/-- `mean(seq)`: the average of a sequence, `float('nan')` (modelled as
`none`) for an empty one. -/
def mean (seq : List ℚ) : Option ℚ :=
  if seq.length > 0 then some (seq.sum / seq.length) else none

/-- The process-wide mutable state of the script: the three running
totals, the per-sentence `lengths` and `error_rates` lists, the twenty
`wer_bins` buckets, the sentence `counter` (starting at 1), and the
confusion tables. -/
structure EvalState where
  error_count : Nat
  match_count : Nat
  ref_token_count : Nat
  lengths : List Nat
  error_rates : List ℚ
  wer_bins : List (List ℚ)
  counter : Nat
  tables : ConfTables

/-- The state at program start. -/
def initState : EvalState :=
  { error_count := 0, match_count := 0, ref_token_count := 0,
    lengths := [], error_rates := [],
    wer_bins := List.replicate 20 [], counter := 1,
    tables := ⟨fun _ => 0, fun _ => 0, fun _ => 0⟩ }

/-- Python true division, raising `ZeroDivisionError` on a zero
divisor. -/
def pyDiv (a b : ℚ) : Except Err ℚ :=
  if b = 0 then .error .zeroDivision else .ok (a / b)

/-- `wer_bins[n].append(r)`: `IndexError` when `n` is out of range. -/
def binsAppend (bins : List (List ℚ)) (n : Nat) (r : ℚ) :
    Except Err (List (List ℚ)) :=
  if n < bins.length then .ok (bins.set n (bins.getD n [] ++ [r]))
  else .error .indexError

/-- Identifier stripping (the `files_have_ids` block of the loop):
read `ref[-1]` and `hyp[-1]` (`IndexError` on an empty list), assert the
two identifiers are equal, and drop them. -/
def stripPair (f : Flags) (ref hyp : List Str) :
    Except Err (List Str × List Str) :=
  if f.files_have_ids then
    match ref.getLast?, hyp.getLast? with
    | some ref_id, some hyp_id =>
        if ref_id = hyp_id then .ok (ref.dropLast, hyp.dropLast)
        else .error .identifierMismatch
    | _, _ => .error .indexError
  else .ok (ref, hyp)

/-- The `print_instances` block of the loop: print the diff and the
per-sentence percentage lines, whose computations
`100.0 * matches / ref_length` and `100.0 * errors / ref_length` divide
by the reference length. -/
def printInstance (f : Flags) (opcodes : List Opcode) (ref hyp : List Str)
    (nmatches errors ref_length : Nat) : Except Err Unit :=
  if f.print_instances then do
    let _ ← print_diff opcodes ref hyp
    let _ ← pyDiv (100 * (nmatches : ℚ)) ((ref_length : ℚ))
    let _ ← pyDiv (100 * (errors : ℚ)) ((ref_length : ℚ))
    Except.ok ()
  else Except.ok ()

/-- The body of the main loop for one already-stripped pair: count the
errors and matches, bump the three totals, optionally track confusions
and print the instance (whose percentage prints divide by the reference
length), append the per-sentence error rate to `lengths`/`error_rates`,
and append it again into `wer_bins[len(ref)]`. -/
def processTokens (f : Flags) (st : EvalState) (ref hyp : List Str) :
    Except Err EvalState := do
  let opcodes := get_opcodes ref hyp
  let errors := get_error_count opcodes
  let nmatches ← get_match_count ref hyp
  let ref_length := ref.length
  let st1 : EvalState :=
    { st with
      error_count := st.error_count + errors,
      match_count := st.match_count + nmatches,
      ref_token_count := st.ref_token_count + ref_length }
  let st2 : EvalState :=
    if f.confusions then
      { st1 with tables := track_confusions opcodes ref hyp st1.tables }
    else st1
  let _ ← printInstance f opcodes ref hyp nmatches errors ref_length
  let rate1 ← pyDiv (errors : ℚ) ((ref.length : ℚ))
  let st3 : EvalState :=
    { st2 with
      lengths := st2.lengths ++ [ref_length],
      error_rates := st2.error_rates ++ [rate1] }
  let rate2 ← pyDiv (errors : ℚ) ((ref.length : ℚ))
  let bins ← binsAppend st3.wer_bins ref.length rate2
  Except.ok { st3 with wer_bins := bins, counter := st3.counter + 1 }

/-- The body of the main loop for one raw line pair: whitespace-tokenize
both lines, strip identifiers if enabled, then process the tokens. -/
def processPair (f : Flags) (st : EvalState) (p : Str × Str) :
    Except Err EvalState := do
  let (ref, hyp) ← stripPair f (pySplitWs p.1) (pySplitWs p.2)
  processTokens f st ref hyp

/-- The main loop over the zipped line pairs. -/
def runPairs (f : Flags) (st : EvalState) (pairs : List (Str × Str)) :
    Except Err EvalState :=
  pairs.foldlM (processPair f) st

/-- `main()`: iterate `izip(ref_lines, hyp_lines)`, then compute the
per-length mean table and the final WRR and WER percentages
(`100*match_count/ref_token_count`, `100*error_count/ref_token_count`).
(`print_confusions` only formats the tables, computes nothing reused,
and cannot raise, so it contributes no value here.) -/
def mainRun (f : Flags) (refLines hypLines : List Str) :
    Except Err (EvalState × List (Option ℚ) × ℚ × ℚ) := do
  let st ← runPairs f initState (refLines.zip hypLines)
  let avg_wers := st.wer_bins.map mean
  let wrr ← pyDiv (100 * (st.match_count : ℚ)) ((st.ref_token_count : ℚ))
  let wer ← pyDiv (100 * (st.error_count : ℚ)) ((st.ref_token_count : ℚ))
  Except.ok (st, avg_wers, wrr, wer)

/-- The tokens of a pair after tokenization and unconditional identifier
stripping (the value the loop works with when stripping succeeds). -/
def pairTokens (f : Flags) (p : Str × Str) : List Str × List Str :=
  let ref := pySplitWs p.1
  let hyp := pySplitWs p.2
  if f.files_have_ids then (ref.dropLast, hyp.dropLast) else (ref, hyp)

/-- The error count one pair contributes. -/
def pairErrors (f : Flags) (p : Str × Str) : Nat :=
  get_error_count (get_opcodes (pairTokens f p).1 (pairTokens f p).2)

/-- The match count one pair contributes. -/
def pairMatches (f : Flags) (p : Str × Str) : Nat :=
  matchesCount (pairTokens f p).1 (pairTokens f p).2

/-- The reference-token count one pair contributes. -/
def pairRefLen (f : Flags) (p : Str × Str) : Nat :=
  (pairTokens f p).1.length

/-- Whether a result is a success. -/
def resultOk {α : Type} (e : Except Err α) : Bool :=
  match e with
  | .ok _ => true
  | .error _ => false

/-- The final state of a successful run (`initState` otherwise). -/
def finalState (e : Except Err (EvalState × List (Option ℚ) × ℚ × ℚ)) :
    EvalState :=
  match e with
  | .ok r => r.1
  | .error _ => initState

/-- The reported WRR of a successful run (`0` otherwise). -/
def reportedWrr (e : Except Err (EvalState × List (Option ℚ) × ℚ × ℚ)) :
    ℚ :=
  match e with
  | .ok r => r.2.2.1
  | .error _ => 0

/-- The reported WER of a successful run (`0` otherwise). -/
def reportedWer (e : Except Err (EvalState × List (Option ℚ) × ℚ × ℚ)) :
    ℚ :=
  match e with
  | .ok r => r.2.2.2
  | .error _ => 0

/-- The state of a successful loop run (`initState` otherwise). -/
def stateOf (e : Except Err EvalState) : EvalState :=
  match e with
  | .ok s => s
  | .error _ => initState

/-- A reference line of twenty one-letter tokens. -/
def ref20 : Str := "a a a a a a a a a a a a a a a a a a a a".data

-- ===== Theorems =====

/-- `foldl (+) n` over naturals is `n` plus the list sum. -/
theorem foldl_add_eq_sum (l : List Nat) (n : Nat) :
    l.foldl (· + ·) n = n + l.sum := by
  induction l generalizing n with
  | nil => simp
  | cons a t ih => simp [List.foldl_cons, ih, Nat.add_assoc]

/-- Summing `f` over the elements kept by a filter is summing the pointwise
contributions, `0` for the elements filtered out. -/
theorem sum_map_filter {α : Type} (p : α → Bool) (f : α → Nat) (l : List α) :
    ((l.filter p).map f).sum =
      (l.map (fun x => if p x then f x else 0)).sum := by
  induction l with
  | nil => rfl
  | cons a t ih =>
      by_cases h : p a <;> simp [List.filter_cons, h, ih]

/-- C1: for every opcode sequence, `get_error_count` returns the sum, over
the opcodes whose kind is insert, delete or replace, of
`max(i2 - i1, j2 - j1)` (the larger of the two span lengths); in
particular a replace run of 2 reference tokens against 3 hypothesis
tokens counts as 3 errors. -/
theorem claim_C1_error_count_max_span (opcodes : List Opcode) :
    get_error_count opcodes =
      (opcodes.map (fun op =>
        if op.tag = .insert ∨ op.tag = .delete ∨ op.tag = .replace
        then max (op.i2 - op.i1) (op.j2 - op.j1) else 0)).sum ∧
    get_error_count [⟨.replace, 0, 2, 0, 3⟩] = 3 := by
  refine ⟨?_, rfl⟩
  rw [get_error_count, foldl_add_eq_sum, Nat.zero_add, sum_map_filter]
  have h : (fun (x : Opcode) =>
        if decide (x.tag ∈ error_codes) then max (x.i2 - x.i1) (x.j2 - x.j1)
        else 0) =
      (fun (op : Opcode) =>
        if op.tag = .insert ∨ op.tag = .delete ∨ op.tag = .replace
        then max (op.i2 - op.i1) (op.j2 - op.j1) else 0) := by
    funext x
    cases x.tag <;> simp [error_codes]
  rw [h]

/-- Bumping the substitution table once per element of a key list adds, at
every key, the number of occurrences of that key in the list. -/
theorem foldl_bumpSub_count (l : List (Str × Str)) (t : ConfTables)
    (k : Str × Str) :
    (l.foldl (fun t key => bumpSub t key) t).substitution_table k =
      t.substitution_table k + l.count k := by
  induction l generalizing t with
  | nil => simp
  | cons a rest ih =>
      rw [List.foldl_cons, ih, List.count_cons]
      have hb : (bumpSub t a).substitution_table k =
          t.substitution_table k + (if k = a then 1 else 0) := by
        by_cases h : k = a <;> simp [bumpSub, h]
      rw [hb]
      by_cases h : k = a
      · subst h; simp; omega
      · rw [if_neg h,
          show (a == k) = false from
            beq_eq_false_iff_ne.mpr (fun hh => h hh.symm)]
        simp

/-- The nested replace loops of `track_confusions` bump the substitution
table exactly once per ordered pair of the two slices. -/
theorem foldl_bumpSub_cross (l1 l2 : List Str) (t : ConfTables)
    (k : Str × Str) :
    ((l1.foldl
        (fun t w1 => l2.foldl (fun t w2 => bumpSub t (w1, w2)) t)
        t).substitution_table k) =
      t.substitution_table k + (crossPairs l1 l2).count k := by
  induction l1 generalizing t with
  | nil => simp [crossPairs]
  | cons a rest ih =>
      have inner : ∀ (t : ConfTables),
          (l2.foldl (fun t w2 => bumpSub t (a, w2)) t).substitution_table k =
            t.substitution_table k + (l2.map (fun w2 => (a, w2))).count k := by
        intro t
        have := foldl_bumpSub_count (l2.map (fun w2 => (a, w2))) t k
        rw [← this, ← List.foldl_map]
      rw [List.foldl_cons, ih]
      simp [crossPairs, inner, List.count_append]
      omega

/-- C4: for every `replace` opcode processed by `track_confusions`, the
substitution table is incremented by 1 for every ordered pair `(w1, w2)`
with `w1` in the opcode's reference span and `w2` in its hypothesis span
(the full cross product); in particular a replace run of ref-span length 2
and hyp-span length 2 with distinct tokens increments exactly the four
ordered-pair entries by 1 and leaves every other entry unchanged. -/
theorem claim_C4_replace_cross_product :
    (∀ (t : ConfTables) (seq1 seq2 : List Str) (i1 i2 j1 j2 : Nat)
        (k : Str × Str),
      (track_confusions [⟨.replace, i1, i2, j1, j2⟩] seq1 seq2
          t).substitution_table k =
        t.substitution_table k +
          (crossPairs (pySlice seq1 i1 i2) (pySlice seq2 j1 j2)).count k) ∧
    (∀ (t : ConfTables) (k : Str × Str),
      (track_confusions [⟨.replace, 0, 2, 0, 2⟩] ["a".data, "b".data]
          ["c".data, "d".data] t).substitution_table k =
        t.substitution_table k +
          (if k ∈ ([("a".data, "c".data), ("a".data, "d".data),
                    ("b".data, "c".data), ("b".data, "d".data)] :
              List (Str × Str)) then 1 else 0)) := by
  have hgen : ∀ (t : ConfTables) (seq1 seq2 : List Str) (i1 i2 j1 j2 : Nat)
      (k : Str × Str),
      (track_confusions [⟨.replace, i1, i2, j1, j2⟩] seq1 seq2
          t).substitution_table k =
        t.substitution_table k +
          (crossPairs (pySlice seq1 i1 i2) (pySlice seq2 j1 j2)).count k := by
    intro t seq1 seq2 i1 i2 j1 j2 k
    rw [track_confusions, List.foldl_cons, List.foldl_nil]
    exact foldl_bumpSub_cross (pySlice seq1 i1 i2) (pySlice seq2 j1 j2) t k
  refine ⟨hgen, ?_⟩
  intro t k
  rw [hgen]
  congr 1
  have hc : crossPairs (pySlice ["a".data, "b".data] 0 2)
      (pySlice ["c".data, "d".data] 0 2) =
      [("a".data, "c".data), ("a".data, "d".data),
       ("b".data, "c".data), ("b".data, "d".data)] := rfl
  rw [hc]
  by_cases h1 : k = ("a".data, "c".data)
  · subst h1; decide
  by_cases h2 : k = ("a".data, "d".data)
  · subst h2; decide
  by_cases h3 : k = ("b".data, "c".data)
  · subst h3; decide
  by_cases h4 : k = ("b".data, "d".data)
  · subst h4; decide
  rw [if_neg (by simp [h1, h2, h3, h4])]
  exact List.count_eq_zero.mpr (by simp [h1, h2, h3, h4])

/-- `upper` preserves character length. -/
theorem upper_length (s : Str) : (upper s).length = s.length := by
  simp [upper]

/-- `lower` preserves character length. -/
theorem lower_length (s : Str) : (lower s).length = s.length := by
  simp [lower]

/-- Equal-count maps over two ranges are width-related whenever the images
are pointwise width-related. -/
theorem forall2_len_map_range' (f g : Nat → Str) :
    ∀ (n i j : Nat),
      (∀ k, k < n → (f (i + k)).length = (g (j + k)).length) →
      List.Forall₂ (fun r h => r.length = h.length)
        ((List.range' i n).map f) ((List.range' j n).map g) := by
  intro n
  induction n with
  | zero => intro i j _; simp
  | succ n ih =>
      intro i j h
      rw [List.range'_succ, List.range'_succ]
      simp only [List.map_cons]
      refine List.Forall₂.cons ?_ (ih (i + 1) (j + 1) ?_)
      · simpa using h 0 (Nat.succ_pos n)
      · intro k hk
        have e1 : i + 1 + k = i + (k + 1) := by omega
        have e2 : j + 1 + k = j + (k + 1) := by omega
        rw [e1, e2]
        exact h (k + 1) (by omega)

/-- A fixed replace slot always renders two strings of the same width,
provided a present word is nonempty and not both slots are padding. -/
theorem slotFix_length {w1 w2 : Option Str}
    (h1 : ∀ s, w1 = some s → s ≠ [])
    (h2 : ∀ s, w2 = some s → s ≠ [])
    (hne : ¬(w1 = none ∧ w2 = none)) :
    (slotFix w1 w2).1.length = (slotFix w1 w2).2.length := by
  match w1, w2 with
  | none, none => exact absurd ⟨rfl, rfl⟩ hne
  | none, some b => simp [slotFix, truthy, stars]
  | some a, none => simp [slotFix, truthy, stars]
  | some a, some b =>
      have ha : a ≠ [] := h1 a rfl
      have hb : b ≠ [] := h2 b rfl
      have hae : a.isEmpty = false := by
        cases a with
        | nil => exact absurd rfl ha
        | cons x xs => rfl
      have hbe : b.isEmpty = false := by
        cases b with
        | nil => exact absurd rfl hb
        | cons x xs => rfl
      by_cases hgt : a.length > b.length
      · simp [slotFix, truthy, hae, hbe, hgt, pad]
        omega
      · by_cases hlt : a.length < b.length
        · simp [slotFix, truthy, hae, hbe, hgt, hlt, pad]
          omega
        · simp [slotFix, truthy, hae, hbe, hgt, hlt]
          omega

/-- Fixing a list of good slot pairs yields width-related rows. -/
theorem forall2_slotFix (l : List (Option Str × Option Str))
    (hgood : ∀ p ∈ l, (∀ s, p.1 = some s → s ≠ []) ∧
      (∀ s, p.2 = some s → s ≠ []) ∧ ¬(p.1 = none ∧ p.2 = none)) :
    List.Forall₂ (fun r h => r.length = h.length)
      ((l.map (fun p => slotFix p.1 p.2)).map Prod.fst)
      ((l.map (fun p => slotFix p.1 p.2)).map Prod.snd) := by
  induction l with
  | nil => simp
  | cons p rest ih =>
      simp only [List.map_cons]
      refine List.Forall₂.cons ?_
        (ih (fun q hq => hgood q (List.mem_cons_of_mem p hq)))
      obtain ⟨g1, g2, g3⟩ := hgood p (List.mem_cons_self p rest)
      exact slotFix_length g1 g2 g3

/-- A member of a padded upper-cased slice is either a nonempty present
word or the padding value. -/
theorem mem_padded_slice {seq : List Str} {i j n : Nat} {w : Option Str}
    (hne : ∀ t ∈ seq, t ≠ [])
    (hw : w ∈ (pySlice seq i j).map (fun t => some (upper t)) ++
      List.replicate n (none : Option Str)) :
    (∀ s, w = some s → s ≠ []) ∧ (n = 0 → w ≠ none) := by
  rcases List.mem_append.mp hw with hm | hm
  · obtain ⟨t, ht, rfl⟩ := List.mem_map.mp hm
    have htne : t ≠ [] :=
      hne t (List.take_subset _ _ (by exact ht) |> List.drop_subset _ _)
    refine ⟨?_, fun _ h => nomatch h⟩
    intro s hs
    cases hs
    simp [upper]
    exact htne
  · have := List.eq_of_mem_replicate hm
    subst this
    refine ⟨(fun s hs => nomatch hs), ?_⟩
    intro h0
    rw [h0] at hm
    simp at hm

/-- The replace branch of the diff succeeds on in-bounds spans over
nonempty tokens and yields width-related rows. -/
theorem diffReplace_ok (seq1 seq2 : List Str) (i1 i2 j1 j2 : Nat)
    (hi : i1 ≤ i2) (hi2 : i2 ≤ seq1.length)
    (hj : j1 ≤ j2) (hj2 : j2 ≤ seq2.length)
    (h1 : ∀ w ∈ seq1, w ≠ []) (h2 : ∀ w ∈ seq2, w ≠ []) :
    ∃ c1 c2, diffReplace seq1 seq2 i1 i2 j1 j2 = .ok (c1, c2) ∧
      List.Forall₂ (fun r h => r.length = h.length) c1 c2 := by
  have hl1 : (pySlice seq1 i1 i2).length = i2 - i1 := by
    simp [pySlice]
    omega
  have hl2 : (pySlice seq2 j1 j2).length = j2 - j1 := by
    simp [pySlice]
    omega
  have hlen :
      (((pySlice seq1 i1 i2).map (fun w => some (upper w))) ++
        List.replicate ((j2 - j1) - (i2 - i1)) (none : Option Str)).length =
      (((pySlice seq2 j1 j2).map (fun w => some (upper w))) ++
        List.replicate ((i2 - i1) - (j2 - j1)) (none : Option Str)).length := by
    simp [hl1, hl2]
    omega
  rw [diffReplace]
  rw [if_neg (not_not_intro hlen)]
  refine ⟨_, _, rfl, ?_⟩
  apply forall2_slotFix
  intro p hp
  have hmem := List.of_mem_zip hp
  have g1 := mem_padded_slice h1 hmem.1
  have g2 := mem_padded_slice h2 hmem.2
  refine ⟨g1.1, g2.1, ?_⟩
  rintro ⟨hp1, hp2⟩
  by_cases hc : j2 - j1 ≤ i2 - i1
  · exact g1.2 (by omega) hp1
  · exact g2.2 (by omega) hp2

/-- Each opcode's diff contribution succeeds and is width-related. -/
theorem diffOpcode_ok (seq1 seq2 : List Str) (op : Opcode)
    (hv : OpcodeValid seq1 seq2 op)
    (h1 : ∀ w ∈ seq1, w ≠ []) (h2 : ∀ w ∈ seq2, w ≠ []) :
    ∃ c1 c2, diffOpcode seq1 seq2 op = .ok (c1, c2) ∧
      List.Forall₂ (fun r h => r.length = h.length) c1 c2 := by
  obtain ⟨tag, i1, i2, j1, j2⟩ := op
  obtain ⟨hi, hi2, hj, hj2, heq⟩ := hv
  cases tag with
  | equal =>
      obtain ⟨hn, htok⟩ := heq rfl
      refine ⟨_, _, rfl, ?_⟩
      simp only at hn htok ⊢
      rw [← hn]
      exact forall2_len_map_range' _ _ (i2 - i1) i1 j1
        (fun k hk => by rw [htok k hk])
  | delete =>
      refine ⟨_, _, rfl, ?_⟩
      exact forall2_len_map_range' _ _ (i2 - i1) i1 i1
        (fun k _ => by simp [upper, stars])
  | insert =>
      refine ⟨_, _, rfl, ?_⟩
      exact forall2_len_map_range' _ _ (j2 - j1) j1 j1
        (fun k _ => by simp [upper, stars])
  | replace =>
      exact diffReplace_ok seq1 seq2 i1 i2 j1 j2 hi hi2 hj hj2 h1 h2

/-- The diff-row fold succeeds from any width-related accumulator. -/
theorem print_diff_fold (seq1 seq2 : List Str)
    (h1 : ∀ w ∈ seq1, w ≠ []) (h2 : ∀ w ∈ seq2, w ≠ []) :
    ∀ (opcodes : List Opcode),
      (∀ op ∈ opcodes, OpcodeValid seq1 seq2 op) →
      ∀ acc : List Str × List Str,
        List.Forall₂ (fun r h => r.length = h.length) acc.1 acc.2 →
        ∃ rt ht,
          (opcodes.foldlM
            (fun (acc : List Str × List Str) op => do
              let (c1, c2) ← diffOpcode seq1 seq2 op
              Except.ok (acc.1 ++ c1, acc.2 ++ c2)) acc) = .ok (rt, ht) ∧
          List.Forall₂ (fun r h => r.length = h.length) rt ht := by
  intro opcodes
  induction opcodes with
  | nil => exact fun _ acc hacc => ⟨acc.1, acc.2, rfl, hacc⟩
  | cons op rest ih =>
      intro hv acc hacc
      obtain ⟨c1, c2, hok, hf⟩ :=
        diffOpcode_ok seq1 seq2 op (hv op (List.mem_cons_self op rest)) h1 h2
      rw [List.foldlM_cons]
      simp only [hok]
      exact ih (fun o ho => hv o (List.mem_cons_of_mem op ho))
        (acc.1 ++ c1, acc.2 ++ c2) (List.rel_append hacc hf)

/-- C5 counterexample: for the (aligner-produced) single replace opcode
over reference `["ab"]` and hypothesis `["c"]`, the two rendered lines,
split on single spaces, have different numbers of tokens (the padding of
the shorter word introduced a space), so the claim as stated fails. -/
theorem claim_C5_counterexample_split_mismatch :
    get_opcodes ["ab".data] ["c".data] = [⟨.replace, 0, 1, 0, 1⟩] ∧
    print_diff [⟨.replace, 0, 1, 0, 1⟩] ["ab".data] ["c".data] =
      .ok ("REF: AB".data, "HYP: C ".data) ∧
    (splitOnSpace "REF: AB".data).length ≠
      (splitOnSpace "HYP: C ".data).length :=
  ⟨rfl, rfl, by decide⟩

/-- C5 amended: for every well-formed opcode sequence over sequences of
nonempty tokens, `print_diff` succeeds and its two token rows have the
same number of tokens with corresponding tokens of equal character
length.  (The claim's split-on-single-spaces phrasing fails because a
padded rendered token may itself contain spaces; the invariant holds of
the token rows themselves.) -/
theorem claim_C5_amended_token_widths (opcodes : List Opcode)
    (seq1 seq2 : List Str)
    (hv : ∀ op ∈ opcodes, OpcodeValid seq1 seq2 op)
    (h1 : ∀ w ∈ seq1, w ≠ []) (h2 : ∀ w ∈ seq2, w ≠ []) :
    ∃ rt ht, print_diff_tokens opcodes seq1 seq2 = .ok (rt, ht) ∧
      rt.length = ht.length ∧
      List.Forall₂ (fun r h => r.length = h.length) rt ht := by
  obtain ⟨rt, ht, hok, hf⟩ :=
    print_diff_fold seq1 seq2 h1 h2 opcodes hv ([], []) List.Forall₂.nil
  exact ⟨rt, ht, hok, hf.length_eq, hf⟩

/-- Witness for the amended C5 at a concrete valid input. -/
theorem claim_C5_amended_witness :
    (∀ op ∈ ([⟨.replace, 0, 1, 0, 1⟩] : List Opcode),
      OpcodeValid ["ab".data] ["c".data] op) ∧
    (∃ rt ht,
      print_diff_tokens [⟨.replace, 0, 1, 0, 1⟩] ["ab".data] ["c".data] =
        .ok (rt, ht) ∧
      rt.length = ht.length ∧
      List.Forall₂ (fun r h => r.length = h.length) rt ht) :=
  ⟨by decide,
    claim_C5_amended_token_widths [⟨.replace, 0, 1, 0, 1⟩] ["ab".data]
      ["c".data] (by decide) (by decide) (by decide)⟩

/-- Row zero of the distance table: deleting nothing, `j` insertions. -/
theorem dist_zero_left (a b : List Str) (j : Nat) : dist a b 0 j = j := rfl

/-- Column zero of the distance table: `i + 1` deletions. -/
theorem dist_succ_zero (a b : List Str) (i : Nat) :
    dist a b (i + 1) 0 = i + 1 := rfl

/-- The Wagner–Fischer recurrence: diagonal, vertical, horizontal. -/
theorem dist_succ_succ (a b : List Str) (i j : Nat) :
    dist a b (i + 1) (j + 1) =
      min (dist a b i j + subCost (a.getD i []) (b.getD j []))
        (min (dist a b i (j + 1) + 1) (dist a b (i + 1) j + 1)) := rfl

/-- `stepOp` preserves the step's tag. -/
theorem stepOp_tag (s : Step) : (stepOp s).tag = s.tag := by
  obtain ⟨t, si, sj⟩ := s
  cases t <;> rfl

/-- Chains compose over list append. -/
theorem chainTo_append {xs : List Step} :
    ∀ {ys : List Step} {i j m n i' j' : Nat},
      chainTo i j m n xs → chainTo m n i' j' ys →
      chainTo i j i' j' (xs ++ ys) := by
  induction xs with
  | nil =>
      intro ys i j m n i' j' h1 h2
      obtain ⟨rfl, rfl⟩ := h1
      simpa using h2
  | cons s rest ih =>
      intro ys i j m n i' j' h1 h2
      obtain ⟨hsi, hsj, hrest⟩ := h1
      exact ⟨hsi, hsj, ih hrest h2⟩

/-- Backtracking along row `0` chains from `(0, 0)` to `(0, j)`. -/
theorem backZero_chain : ∀ j, chainTo 0 0 0 j (backZero j) := by
  intro j
  induction j with
  | zero => exact ⟨rfl, rfl⟩
  | succ j ih =>
      rw [backZero]
      exact chainTo_append ih ⟨rfl, rfl, rfl, rfl⟩

/-- Backtracking through row `i + 1` chains from `(0, 0)` to
`(i + 1, j)`, given that the previous rows chain. -/
theorem backAux_chain (a b : List Str) (prev : Nat → List Step) (i : Nat)
    (hprev : ∀ j, chainTo 0 0 i j (prev j)) :
    ∀ j, chainTo 0 0 (i + 1) j (backAux a b prev i j) := by
  intro j
  induction j with
  | zero =>
      rw [backAux]
      exact chainTo_append (hprev 0) ⟨rfl, rfl, rfl, rfl⟩
  | succ j ih =>
      rw [backAux]
      by_cases hd : dist a b i j + subCost (a.getD i []) (b.getD j []) =
          dist a b (i + 1) (j + 1)
      · rw [if_pos hd]
        refine chainTo_append (hprev j) ?_
        by_cases hs : subCost (a.getD i []) (b.getD j []) = 0
        · rw [if_pos hs]
          exact ⟨rfl, rfl, rfl, rfl⟩
        · rw [if_neg hs]
          exact ⟨rfl, rfl, rfl, rfl⟩
      · rw [if_neg hd]
        by_cases hv : dist a b i (j + 1) + 1 = dist a b (i + 1) (j + 1)
        · rw [if_pos hv]
          exact chainTo_append (hprev (j + 1)) ⟨rfl, rfl, rfl, rfl⟩
        · rw [if_neg hv]
          exact chainTo_append ih ⟨rfl, rfl, rfl, rfl⟩

/-- The backtracking pass produces a contiguous chain of steps from cell
`(0, 0)` to cell `(i, j)`. -/
theorem backtrack_chain (a b : List Str) :
    ∀ i j, chainTo 0 0 i j (backtrack a b i j) := by
  intro i
  induction i with
  | zero => exact fun j => backZero_chain j
  | succ i ih => exact fun j => backAux_chain a b (backRow a b i) i ih j

/-- Run-length compression of a contiguous step chain preserves the
matched-token count: the number of `equal` steps equals the summed
`equal`-opcode span lengths.  Alongside, the head opcode of the
compression starts at the chain's start cell and has ordered spans. -/
theorem compress_spec :
    ∀ (steps : List Step) (i j i' j' : Nat),
      chainTo i j i' j' steps →
      (steps.countP (fun s => s.tag == Tag.equal) =
        eqSpanSum (compress steps)) ∧
      (∀ op ops, compress steps = op :: ops →
        op.i1 = i ∧ op.j1 = j ∧ op.i1 ≤ op.i2 ∧ op.j1 ≤ op.j2) := by
  intro steps
  induction steps with
  | nil =>
      intro i j i' j' _
      exact ⟨rfl, fun op ops h => nomatch h⟩
  | cons s rest ih =>
      intro i j i' j' hch
      obtain ⟨hsi, hsj, hrest⟩ := hch
      obtain ⟨ihc, ihh⟩ := ih (nextI s) (nextJ s) i' j' hrest
      cases hcr : compress rest with
      | nil =>
          have hc : compress (s :: rest) = [stepOp s] := by
            rw [compress, hcr]
          rw [hcr] at ihc
          have ihc0 : rest.countP (fun s => s.tag == Tag.equal) = 0 := by
            simpa [eqSpanSum] using ihc
          constructor
          · rw [hc, List.countP_cons, ihc0]
            obtain ⟨t, si, sj⟩ := s
            cases t <;> simp [eqSpanSum, stepOp]
          · intro op ops h
            rw [hc] at h
            cases h
            subst hsi
            subst hsj
            obtain ⟨t, si, sj⟩ := s
            cases t <;> simp [stepOp]
      | cons op ops =>
          obtain ⟨hoi, hoj, hole, hole2⟩ := ihh op ops hcr
          by_cases htag : (stepOp s).tag = op.tag
          · have hc : compress (s :: rest) =
                ⟨op.tag, (stepOp s).i1, op.i2, (stepOp s).j1, op.j2⟩ ::
                  ops := by
              rw [compress, hcr]
              exact if_pos htag
            rw [stepOp_tag] at htag
            rw [hcr] at ihc
            constructor
            · rw [hc, List.countP_cons, ihc]
              obtain ⟨t, si, sj⟩ := s
              subst hsi
              subst hsj
              cases t <;>
                simp [eqSpanSum, stepOp, ← htag, nextI, nextJ] at * <;>
                omega
            · intro op' ops' h
              rw [hc] at h
              cases h
              subst hsi
              subst hsj
              obtain ⟨t, si, sj⟩ := s
              cases t <;> simp [stepOp] <;>
                simp [nextI, nextJ] at hoi hoj <;> omega
          · have hc : compress (s :: rest) = stepOp s :: op :: ops := by
              rw [compress, hcr]
              exact if_neg htag
            rw [hcr] at ihc
            constructor
            · rw [hc, List.countP_cons, ihc]
              obtain ⟨t, si, sj⟩ := s
              cases t <;> simp [eqSpanSum, stepOp] <;> omega
            · intro op' ops' h
              rw [hc] at h
              cases h
              subst hsi
              subst hsj
              obtain ⟨t, si, sj⟩ := s
              cases t <;> simp [stepOp]

/-- Summing the block sizes of the equal opcodes is `eqSpanSum`. -/
theorem blocks_size_sum (ops : List Opcode) :
    ((ops.filterMap (fun op =>
        if op.tag = .equal then some (op.i1, op.j1, op.i2 - op.i1)
        else none)).map (fun x => x.2.2)).sum = eqSpanSum ops := by
  induction ops with
  | nil => rfl
  | cons op rest ih =>
      by_cases h : op.tag = .equal <;>
        simp [List.filterMap_cons, h, eqSpanSum, ih]

/-- The two match-count traversals of `get_match_count` always agree, so
the assertion never fails and the match count is returned. -/
theorem get_match_count_ok (a b : List Str) :
    get_match_count a b = .ok (matchesCount a b) := by
  have hchain : chainTo 0 0 a.length b.length (smSteps a b) :=
    backtrack_chain a b a.length b.length
  have hcount :=
    (compress_spec (smSteps a b) 0 0 a.length b.length hchain).1
  rw [get_match_count]
  rw [if_pos]
  rw [matchesCount, hcount, foldl_add_eq_sum, Nat.zero_add,
    get_matching_blocks, blocks_size_sum]
  rfl

/-- C2: for every pair of token sequences, the match count from
`sm.matches()` equals the match count computed independently as the sum
of the matching-block sizes, so the assertion inside `get_match_count`
never fails and the match count is returned. -/
theorem claim_C2_match_count_consistent (a b : List Str) :
    matchesCount a b =
      ((get_matching_blocks a b).map (fun x => x.2.2)).foldl (· + ·) 0 ∧
    get_match_count a b = .ok (matchesCount a b) := by
  have h := get_match_count_ok a b
  refine ⟨?_, h⟩
  rw [get_match_count] at h
  by_cases hc : matchesCount a b =
      ((get_matching_blocks a b).map (fun x => x.2.2)).foldl (· + ·) 0
  · exact hc
  · rw [if_neg hc] at h
    cases h

/-- Binding a success just applies the continuation. -/
theorem ok_bind {α β : Type} (x : α) (f : α → Except Err β) :
    (Except.ok x >>= f) = f x := rfl

/-- Binding an error short-circuits. -/
theorem error_bind {α β : Type} (e : Err) (f : α → Except Err β) :
    ((Except.error e : Except Err α) >>= f) = .error e := rfl

/-- On success, one loop body adds the pair's error count, match count
and reference length to the running totals and bumps the counter. -/
theorem processTokens_ok_spec {f : Flags} {st : EvalState}
    {ref hyp : List Str} {st' : EvalState}
    (h : processTokens f st ref hyp = .ok st') :
    st'.error_count =
      st.error_count + get_error_count (get_opcodes ref hyp) ∧
    st'.match_count = st.match_count + matchesCount ref hyp ∧
    st'.ref_token_count = st.ref_token_count + ref.length ∧
    st'.counter = st.counter + 1 := by
  rw [processTokens, get_match_count_ok] at h
  simp only [ok_bind] at h
  cases hpb : printInstance f (get_opcodes ref hyp) ref hyp
      (matchesCount ref hyp) (get_error_count (get_opcodes ref hyp))
      ref.length with
  | error e =>
      rw [hpb, error_bind] at h
      cases h
  | ok u =>
      rw [hpb] at h
      simp only [ok_bind] at h
      cases hr1 : pyDiv ((get_error_count (get_opcodes ref hyp) : ℚ))
          ((ref.length : ℚ)) with
      | error e =>
          rw [hr1, error_bind] at h
          cases h
      | ok r1 =>
          rw [hr1] at h
          simp only [ok_bind] at h
          cases hb : binsAppend
              (if f.confusions = true then
                { st with
                  error_count := st.error_count +
                    get_error_count (get_opcodes ref hyp),
                  match_count := st.match_count + matchesCount ref hyp,
                  ref_token_count := st.ref_token_count + ref.length,
                  tables := track_confusions (get_opcodes ref hyp) ref hyp
                    st.tables }
              else
                { st with
                  error_count := st.error_count +
                    get_error_count (get_opcodes ref hyp),
                  match_count := st.match_count + matchesCount ref hyp,
                  ref_token_count :=
                    st.ref_token_count + ref.length }).wer_bins
              ref.length r1 with
          | error e =>
              rw [hb] at h
              simp only [error_bind] at h
              cases h
          | ok bins =>
              rw [hb] at h
              simp only [ok_bind] at h
              cases h
              by_cases hc : f.confusions = true <;> simp [hc]

/-- `processPair` on a pair whose identifier strip succeeds. -/
theorem processPair_ok_strip {f : Flags} {st : EvalState} {p : Str × Str}
    {r h' : List Str}
    (hs : stripPair f (pySplitWs p.1) (pySplitWs p.2) = .ok (r, h')) :
    processPair f st p = processTokens f st r h' := by
  rw [processPair, hs]
  rfl

/-- `processPair` propagates a strip failure. -/
theorem processPair_error_strip {f : Flags} {st : EvalState}
    {p : Str × Str} {e : Err}
    (hs : stripPair f (pySplitWs p.1) (pySplitWs p.2) = .error e) :
    processPair f st p = .error e := by
  rw [processPair, hs]
  rfl

/-- A successful strip returns the dropped-identifier tokens. -/
theorem stripPair_ok_eq {f : Flags} {r h r' h' : List Str}
    (hs : stripPair f r h = .ok (r', h')) :
    (r', h') =
      if f.files_have_ids then (r.dropLast, h.dropLast) else (r, h) := by
  rw [stripPair] at hs
  by_cases hf : f.files_have_ids = true
  · rw [if_pos hf] at hs
    rw [if_pos hf]
    cases hr : r.getLast? with
    | none =>
        rw [hr] at hs
        have hs' : (Except.error Err.indexError :
            Except Err (List Str × List Str)) = .ok (r', h') := hs
        cases hs'
    | some ri =>
        cases hh : h.getLast? with
        | none =>
            rw [hr, hh] at hs
            have hs' : (Except.error Err.indexError :
                Except Err (List Str × List Str)) = .ok (r', h') := hs
            cases hs'
        | some hi =>
            rw [hr, hh] at hs
            have hs' : (if ri = hi then
                  (Except.ok (r.dropLast, h.dropLast) :
                    Except Err (List Str × List Str))
                else .error .identifierMismatch) = .ok (r', h') := hs
            by_cases hid : ri = hi
            · rw [if_pos hid] at hs'
              cases hs'
              rfl
            · rw [if_neg hid] at hs'
              cases hs'
  · rw [if_neg hf] at hs
    rw [if_neg hf]
    cases hs
    rfl

/-- Division that returned a value: the value is the quotient and the
divisor was nonzero. -/
theorem pyDiv_ok {a b q : ℚ} (h : pyDiv a b = .ok q) :
    q = a / b ∧ b ≠ 0 := by
  rw [pyDiv] at h
  by_cases hb : b = 0
  · rw [if_pos hb] at h
    cases h
  · rw [if_neg hb] at h
    cases h
    exact ⟨rfl, hb⟩

/-- On success the loop totals are the starting totals plus the per-pair
contributions, and the counter advanced once per pair. -/
theorem runPairs_ok_totals {f : Flags} :
    ∀ (pairs : List (Str × Str)) (st st' : EvalState),
      runPairs f st pairs = .ok st' →
      st'.error_count = st.error_count + (pairs.map (pairErrors f)).sum ∧
      st'.match_count = st.match_count + (pairs.map (pairMatches f)).sum ∧
      st'.ref_token_count =
        st.ref_token_count + (pairs.map (pairRefLen f)).sum ∧
      st'.counter = st.counter + pairs.length := by
  intro pairs
  induction pairs with
  | nil =>
      intro st st' h
      cases h
      simp
  | cons p rest ih =>
      intro st st' h
      rw [runPairs, List.foldlM_cons] at h
      cases hp : processPair f st p with
      | error e =>
          rw [hp] at h
          simp only [error_bind] at h
          cases h
      | ok st1 =>
          rw [hp] at h
          simp only [ok_bind] at h
          obtain ⟨h1, h2, h3, h4⟩ := ih st1 st' h
          cases hs : stripPair f (pySplitWs p.1) (pySplitWs p.2) with
          | error e =>
              rw [processPair_error_strip hs] at hp
              cases hp
          | ok rh =>
              obtain ⟨r, h'⟩ := rh
              rw [processPair_ok_strip hs] at hp
              obtain ⟨e1, e2, e3, e4⟩ := processTokens_ok_spec hp
              have hpt : pairTokens f p = (r, h') := by
                rw [pairTokens]
                exact (stripPair_ok_eq hs).symm
              refine ⟨?_, ?_, ?_, ?_⟩ <;>
                simp [pairErrors, pairMatches, pairRefLen, hpt, h1, h2, h3,
                  h4, e1, e2, e3, e4] <;>
                omega

/-- C3: when the run completes, the reported corpus WER is
`100 * (sum of per-pair error counts) / (sum of reference token counts)`
and the reported WRR is
`100 * (sum of per-pair match counts) / (sum of reference token counts)`,
the running totals being exactly those sums (and the total reference
count being positive, else the division would have raised). -/
theorem claim_C3_corpus_wer_wrr (f : Flags) (refLines hypLines : List Str)
    (hok : resultOk (mainRun f refLines hypLines) = true) :
    (finalState (mainRun f refLines hypLines)).error_count =
      ((refLines.zip hypLines).map (pairErrors f)).sum ∧
    (finalState (mainRun f refLines hypLines)).match_count =
      ((refLines.zip hypLines).map (pairMatches f)).sum ∧
    (finalState (mainRun f refLines hypLines)).ref_token_count =
      ((refLines.zip hypLines).map (pairRefLen f)).sum ∧
    0 < ((refLines.zip hypLines).map (pairRefLen f)).sum ∧
    reportedWrr (mainRun f refLines hypLines) =
      100 * (((refLines.zip hypLines).map (pairMatches f)).sum : ℚ) /
        ((((refLines.zip hypLines).map (pairRefLen f)).sum : ℚ)) ∧
    reportedWer (mainRun f refLines hypLines) =
      100 * (((refLines.zip hypLines).map (pairErrors f)).sum : ℚ) /
        ((((refLines.zip hypLines).map (pairRefLen f)).sum : ℚ)) := by
  cases hm : mainRun f refLines hypLines with
  | error e =>
      rw [hm] at hok
      cases hok
  | ok res =>
      rw [mainRun] at hm
      cases hrun : runPairs f initState (refLines.zip hypLines) with
      | error e =>
          rw [hrun] at hm
          simp only [error_bind] at hm
          cases hm
      | ok st =>
          rw [hrun] at hm
          simp only [ok_bind] at hm
          obtain ⟨t1, t2, t3, t4⟩ := runPairs_ok_totals _ _ _ hrun
          cases hw : pyDiv (100 * (st.match_count : ℚ))
              ((st.ref_token_count : ℚ)) with
          | error e =>
              rw [hw] at hm
              simp only [error_bind] at hm
              cases hm
          | ok wrr =>
              rw [hw] at hm
              simp only [ok_bind] at hm
              cases hw2 : pyDiv (100 * (st.error_count : ℚ))
                  ((st.ref_token_count : ℚ)) with
              | error e =>
                  rw [hw2] at hm
                  simp only [error_bind] at hm
                  cases hm
              | ok wer =>
                  rw [hw2] at hm
                  simp only [ok_bind] at hm
                  cases hm
                  obtain ⟨hwrr, hnz⟩ := pyDiv_ok hw
                  obtain ⟨hwer, _⟩ := pyDiv_ok hw2
                  rw [initState] at t1 t2 t3
                  simp only [Nat.zero_add] at t1 t2 t3
                  have hpos :
                      0 < ((refLines.zip hypLines).map
                        (pairRefLen f)).sum := by
                    rcases Nat.eq_zero_or_pos (((refLines.zip
                        hypLines).map (pairRefLen f)).sum) with h0 | h0
                    · exfalso
                      apply hnz
                      rw [t3, h0]
                      norm_num
                    · exact h0
                  refine ⟨?_, ?_, ?_, hpos, ?_, ?_⟩
                  · show st.error_count = _
                    exact t1
                  · show st.match_count = _
                    exact t2
                  · show st.ref_token_count = _
                    exact t3
                  · show wrr = _
                    rw [hwrr, t2, t3]
                  · show wer = _
                    rw [hwer, t1, t3]

/-- Row-zero backtracking yields only insertion steps. -/
theorem backZero_insert : ∀ j, ∀ s ∈ backZero j, s.tag = .insert := by
  intro j
  induction j with
  | zero => intro s hs; cases hs
  | succ j ih =>
      intro s hs
      rw [backZero] at hs
      rcases List.mem_append.mp hs with hm | hm
      · exact ih s hm
      · rw [List.mem_singleton.mp hm]

/-- Compressing insertion-only steps yields insertion-only opcodes. -/
theorem compress_insert :
    ∀ steps : List Step, (∀ s ∈ steps, s.tag = .insert) →
      ∀ op ∈ compress steps, op.tag = .insert := by
  intro steps
  induction steps with
  | nil => intro _ op hop; cases hop
  | cons s rest ih =>
      intro hall op hop
      have hs : s.tag = .insert := hall s (List.mem_cons_self s rest)
      have hrest := ih (fun q hq => hall q (List.mem_cons_of_mem s hq))
      cases hcr : compress rest with
      | nil =>
          rw [compress, hcr] at hop
          rw [List.mem_singleton.mp hop, stepOp_tag, hs]
      | cons op' ops' =>
          rw [compress, hcr] at hop
          have hop' : op ∈ (if (stepOp s).tag = op'.tag then
              ({ tag := op'.tag, i1 := (stepOp s).i1, i2 := op'.i2,
                 j1 := (stepOp s).j1, j2 := op'.j2 } :: ops')
            else stepOp s :: op' :: ops') := hop
          by_cases htag : (stepOp s).tag = op'.tag
          · rw [if_pos htag] at hop'
            rcases List.mem_cons.mp hop' with rfl | hm
            · exact hrest op' (by rw [hcr]; exact List.mem_cons_self _ _)
            · exact hrest op (by rw [hcr]; exact List.mem_cons_of_mem _ hm)
          · rw [if_neg htag] at hop'
            rcases List.mem_cons.mp hop' with rfl | hm
            · rw [stepOp_tag, hs]
            · exact hrest op (by rw [hcr]; exact hm)

/-- The diff renderer always succeeds on insertion-only opcodes. -/
theorem print_diff_insert_ok (opcodes : List Opcode)
    (seq1 seq2 : List Str) (hall : ∀ op ∈ opcodes, op.tag = .insert) :
    ∃ rt ht, print_diff_tokens opcodes seq1 seq2 = .ok (rt, ht) := by
  suffices hgen : ∀ (ops : List Opcode), (∀ op ∈ ops, op.tag = .insert) →
      ∀ acc : List Str × List Str,
      ∃ rt ht, (ops.foldlM
          (fun (acc : List Str × List Str) op => do
            let (c1, c2) ← diffOpcode seq1 seq2 op
            Except.ok (acc.1 ++ c1, acc.2 ++ c2)) acc) = .ok (rt, ht) by
    exact hgen opcodes hall ([], [])
  intro ops
  induction ops with
  | nil => exact fun _ acc => ⟨acc.1, acc.2, rfl⟩
  | cons op rest ih =>
      intro hall acc
      have hop : op.tag = .insert := hall op (List.mem_cons_self op rest)
      have hd : diffOpcode seq1 seq2 op =
          .ok ((List.range' op.j1 (op.j2 - op.j1)).map
                (fun j => stars (seq2.getD j []).length),
              (List.range' op.j1 (op.j2 - op.j1)).map
                (fun j => upper (seq2.getD j []))) := by
        rw [diffOpcode, hop]
      rw [List.foldlM_cons, hd]
      simp only [ok_bind]
      exact ih (fun q hq => hall q (List.mem_cons_of_mem op hq)) _

/-- The loop body on an empty (stripped) reference raises
`ZeroDivisionError`: with instance printing enabled the percentage
computations divide by zero, otherwise the per-sentence error rate
`errors/len(ref)` does. -/
theorem processTokens_nil_ref (f : Flags) (st : EvalState)
    (hyp : List Str) :
    processTokens f st [] hyp = .error .zeroDivision := by
  have hins : ∀ op ∈ get_opcodes [] hyp, op.tag = .insert := by
    intro op hop
    refine compress_insert (smSteps [] hyp) ?_ op hop
    intro s hs
    exact backZero_insert hyp.length s hs
  have hpi : printInstance f (get_opcodes [] hyp) [] hyp
      (matchesCount [] hyp) (get_error_count (get_opcodes [] hyp))
      (List.length ([] : List Str)) =
      if f.print_instances then .error .zeroDivision else .ok () := by
    rw [printInstance]
    by_cases hp : f.print_instances = true
    · rw [if_pos hp, if_pos hp]
      obtain ⟨rt, ht, hok⟩ := print_diff_insert_ok (get_opcodes [] hyp)
        [] hyp hins
      rw [print_diff, hok]
      simp only [ok_bind]
      rw [show pyDiv (100 * ((matchesCount [] hyp : ℚ)))
          ((List.length ([] : List Str) : ℚ)) = .error .zeroDivision from
        by rw [pyDiv, if_pos (by norm_num)]]
      rfl
    · rw [if_neg hp, if_neg hp]
  rw [processTokens, get_match_count_ok]
  simp only [ok_bind]
  rw [hpi]
  by_cases hp : f.print_instances = true
  · rw [if_pos hp]
    rfl
  · rw [if_neg hp]
    simp only [ok_bind]
    rw [show pyDiv ((get_error_count (get_opcodes [] hyp) : ℚ))
        ((List.length ([] : List Str) : ℚ)) = .error .zeroDivision from
      by rw [pyDiv, if_pos (by norm_num)]]
    rfl

/-- C6: a pair whose reference token sequence is empty after optional
identifier stripping makes the loop body raise a division-by-zero error
(`errors/len(ref)`); the pair is not skipped and the run aborts there. -/
theorem claim_C6_empty_reference_divzero (f : Flags) (st : EvalState)
    (rl hl : Str) (hyp' : List Str)
    (hs : stripPair f (pySplitWs rl) (pySplitWs hl) = .ok ([], hyp')) :
    processPair f st (rl, hl) = .error .zeroDivision ∧
    ∀ rest : List (Str × Str),
      runPairs f st ((rl, hl) :: rest) = .error .zeroDivision := by
  have h1 : processPair f st (rl, hl) = .error .zeroDivision := by
    rw [processPair_ok_strip hs]
    exact processTokens_nil_ref f st hyp'
  refine ⟨h1, ?_⟩
  intro rest
  rw [runPairs, List.foldlM_cons, h1]
  rfl

/-- Witness for C6: an empty reference line paired with a one-token
hypothesis line. -/
theorem claim_C6_witness :
    stripPair ⟨false, false, false⟩ (pySplitWs "".data)
      (pySplitWs "x".data) = .ok ([], ["x".data]) ∧
    processPair ⟨false, false, false⟩ initState ("".data, "x".data) =
      .error .zeroDivision :=
  ⟨rfl,
    (claim_C6_empty_reference_divzero ⟨false, false, false⟩ initState
      "".data "x".data ["x".data] rfl).1⟩

/-- Witness for C3: a one-pair corpus (`"a b"` against `"a c"`) runs to
completion, and its reported WER satisfies the totals formula. -/
theorem claim_C3_witness :
    resultOk (mainRun ⟨false, false, false⟩ ["a b".data] ["a c".data]) =
      true ∧
    reportedWer (mainRun ⟨false, false, false⟩ ["a b".data]
        ["a c".data]) =
      100 * (((["a b".data].zip ["a c".data]).map
          (pairErrors ⟨false, false, false⟩)).sum : ℚ) /
        ((((["a b".data].zip ["a c".data]).map
          (pairRefLen ⟨false, false, false⟩)).sum : ℚ)) :=
  ⟨rfl,
    (claim_C3_corpus_wer_wrr ⟨false, false, false⟩ ["a b".data]
      ["a c".data] rfl).2.2.2.2.2⟩

/-- C7 (code bug): the length-bucketed table has only twenty buckets, so
the twenty-token reference line `ref20` (paired with an empty hypothesis
line) makes the loop body fail with `IndexError` at
`wer_bins[len(ref)]` instead of accepting the length. -/
theorem claim_C7_bins_index_error :
    initState.wer_bins.length = 20 ∧
    (pySplitWs ref20).length = 20 ∧
    processPair ⟨false, false, false⟩ initState (ref20, "".data) =
      .error .indexError :=
  ⟨rfl, rfl, rfl⟩

/-- C8: with identifier handling enabled, a pair with differing trailing
identifiers fails with the identifier-mismatch assertion; the error
propagates and aborts the whole run, the bad pair and everything after
it contributing nothing. -/
theorem claim_C8_identifier_mismatch (f : Flags) (st st' : EvalState)
    (good : List (Str × Str)) (bad : Str × Str)
    (rest : List (Str × Str)) (ri hi : Str)
    (hf : f.files_have_ids = true)
    (hgood : runPairs f st good = .ok st')
    (hri : (pySplitWs bad.1).getLast? = some ri)
    (hhi : (pySplitWs bad.2).getLast? = some hi)
    (hne : ri ≠ hi) :
    processPair f st' bad = .error .identifierMismatch ∧
    runPairs f st (good ++ bad :: rest) =
      .error .identifierMismatch := by
  have hstrip : stripPair f (pySplitWs bad.1) (pySplitWs bad.2) =
      .error .identifierMismatch := by
    rw [stripPair, if_pos hf, hri, hhi]
    exact if_neg hne
  have h1 : processPair f st' bad = .error .identifierMismatch :=
    processPair_error_strip hstrip
  refine ⟨h1, ?_⟩
  rw [runPairs, List.foldlM_append]
  rw [show good.foldlM (processPair f) st = .ok st' from hgood]
  simp only [ok_bind]
  rw [List.foldlM_cons, h1]
  rfl

/-- Witness for C8: mismatched identifiers `x` and `y` on the first
pair. -/
theorem claim_C8_witness :
    runPairs ⟨false, true, false⟩ initState [] = .ok initState ∧
    (pySplitWs "a x".data).getLast? = some "x".data ∧
    (pySplitWs "a y".data).getLast? = some "y".data ∧
    "x".data ≠ "y".data ∧
    runPairs ⟨false, true, false⟩ initState
      ([] ++ ("a x".data, "a y".data) :: []) =
      .error .identifierMismatch :=
  ⟨rfl, rfl, rfl, by decide,
    (claim_C8_identifier_mismatch ⟨false, true, false⟩ initState
      initState [] ("a x".data, "a y".data) [] "x".data "y".data rfl rfl
      rfl rfl (by decide)).2⟩

/-- Zipping truncates to the common prefix length. -/
theorem zip_eq_zip_take {α : Type} :
    ∀ (r h : List α),
      r.zip h = (r.take (min r.length h.length)).zip
        (h.take (min r.length h.length)) := by
  intro r
  induction r with
  | nil => intro h; simp
  | cons x xs ih =>
      intro h
      cases h with
      | nil => simp
      | cons y ys =>
          simp only [List.zip_cons_cons, List.length_cons]
          have := ih ys
          rw [show min (xs.length + 1) (ys.length + 1) =
            min xs.length ys.length + 1 from by omega]
          simp only [List.take_succ_cons, List.zip_cons_cons]
          rw [← this]

/-- C9: the main loop processes exactly
`min (number of reference lines, number of hypothesis lines)` pairs:
the zipped pair list has that length, the run only depends on the
common prefix of the two streams (trailing unmatched lines contribute
nothing), and on success the sentence counter advanced exactly that many
times. -/
theorem claim_C9_truncation (f : Flags) (st : EvalState)
    (r h : List Str) :
    (r.zip h).length = min r.length h.length ∧
    runPairs f st (r.zip h) =
      runPairs f st ((r.take (min r.length h.length)).zip
        (h.take (min r.length h.length))) ∧
    mainRun f r h =
      mainRun f (r.take (min r.length h.length))
        (h.take (min r.length h.length)) ∧
    (∀ st', runPairs f st (r.zip h) = .ok st' →
      st'.counter = st.counter + min r.length h.length) := by
  have hz := zip_eq_zip_take r h
  have hlt : (r.take (min r.length h.length)).length =
      min r.length h.length := by
    simp
  have hlh : (h.take (min r.length h.length)).length =
      min r.length h.length := by
    simp
  refine ⟨by simp, by rw [← hz], ?_, ?_⟩
  · rw [mainRun, mainRun, ← hz]
  · intro st' hok
    have := (runPairs_ok_totals (r.zip h) st st' hok).2.2.2
    rw [this]
    congr 1
    simp

/-- Witness for C9: two reference lines against one hypothesis line
advance the counter once. -/
theorem claim_C9_witness :
    (stateOf (runPairs ⟨false, false, false⟩ initState
        (["a".data, "b".data].zip ["a".data]))).counter =
      initState.counter +
        min ["a".data, "b".data].length ["a".data].length :=
  (claim_C9_truncation ⟨false, false, false⟩ initState
    ["a".data, "b".data] ["a".data]).2.2.2 _ rfl

/-- C10: when the zipped corpus is empty (one of the two streams is
empty) the totals are still zero at the final report and the concluding
WRR/WER computation divides by zero, so the run raises
`ZeroDivisionError` instead of reporting. -/
theorem claim_C10_empty_corpus_divzero (f : Flags) (r h : List Str)
    (he : r = [] ∨ h = []) :
    mainRun f r h = .error .zeroDivision := by
  have hz : r.zip h = [] := by
    rcases he with rfl | rfl
    · simp
    · simp
  rw [mainRun, hz]
  rw [show runPairs f initState [] = .ok initState from rfl]
  simp only [ok_bind]
  rw [show pyDiv (100 * ((initState.match_count : ℚ)))
      ((initState.ref_token_count : ℚ)) = .error .zeroDivision from by
    rw [pyDiv, if_pos (by norm_num [initState])]]
  rfl

/-- Witness for C10: an empty reference stream. -/
theorem claim_C10_witness :
    mainRun ⟨false, false, false⟩ [] ["x".data] =
      .error .zeroDivision :=
  claim_C10_empty_corpus_divzero ⟨false, false, false⟩ [] ["x".data]
    (Or.inl rfl)

end AsrEval

